import Mathlib

/-!
Verification development for the sampled `gutenberg` sources:

* `packages/compose/src/hooks/use-merge-refs/index.js` — the `useMergeRefs`
  hook and its helper `assignRef`;
* `packages/components/src/mobile/audio-player` — the audio URL parser
  (only its test file is sampled, so the parser is modelled from the spec);
* `packages/block-editor/src/hooks/font-family.js` — the font-family
  block-editor extension (`addAttributes`, `addSaveProps`,
  `withFontFamilyInlineStyles`).

The JavaScript is shallowly embedded: React refs become an inductive type
whose constructors carry a numeric identity (JS `===` on refs becomes
decidable equality on identities), elements are numbers, `null`/`undefined`
is `Option.none`, and the observable behaviour of a run is the list of ref
assignments (`RefEvent`s) it performs together with the mutable-ref store.
React's documented contracts that the hook relies on (`useCallback`
memoisation, render-then-layout-effect ordering, ref callbacks firing
during commit before layout effects) are embedded explicitly where the
claims need them.
-/

/-- DOM elements are identified by numbers; `none` models JS `null`/`undefined`. -/
abbrev Elem := Nat

/-- A ref target as it can appear in the `refs` list handed to `useMergeRefs`.
The numeric argument models JS object identity (`===`).

* `fnRef` — a callback ref (a function);
* `objRef` — a mutable ref object owning a `current` property;
* `nullRef` / `undefRef` — JS `null` / `undefined` entries;
* `plainObj` — a non-function object without an own `current` property. -/
inductive RefTarget where
  | fnRef (id : Nat)
  | objRef (id : Nat)
  | nullRef
  | undefRef
  | plainObj (id : Nat)
deriving DecidableEq, Repr

/-- An observable ref assignment: `target` was invoked with (for `fnRef`) or
set to (for `objRef`) `value`. -/
structure RefEvent where
  target : RefTarget
  value : Option Elem
deriving DecidableEq, Repr

/-- The `current` values of the mutable ref objects, keyed by identity. -/
abbrev ObjStore := List (Nat × Option Elem)

/-- Overwrite (or insert) the `current` value of object ref `id`. -/
def setObj (s : ObjStore) (id : Nat) (v : Option Elem) : ObjStore :=
  match s with
  | [] => [(id, v)]
  | (i, w) :: rest => if i = id then (id, v) :: rest else (i, w) :: setObj rest id v

/-- The events a single `assignRef` call produces: function refs are called,
object refs are written, everything else is silently skipped. -/
def refEvents : RefTarget → Option Elem → List RefEvent
  | .fnRef i, v => [⟨.fnRef i, v⟩]
  | .objRef i, v => [⟨.objRef i, v⟩]
  | _, _ => []

/-- Embedding of `assignRef( ref, value )` from `use-merge-refs/index.js`: call `ref` when
it is a function, set `ref.current` when it is an object with an own
`current` property, otherwise do nothing. -/
def assignRef (r : RefTarget) (v : Option Elem) (s : ObjStore) : ObjStore × List RefEvent :=
  match r with
  | .objRef i => (setObj s i v, refEvents (.objRef i) v)
  | r => (s, refEvents r v)

/-- Embedding of `for ( const ref of refsToAssign ) assignRef( ref, value )`. -/
def assignRefList (refs : List RefTarget) (v : Option Elem) (s : ObjStore) :
    ObjStore × List RefEvent :=
  match refs with
  | [] => (s, [])
  | r :: rest =>
    let p := assignRef r v s
    let q := assignRefList rest v p.1
    (q.1, p.2 ++ q.2)

/-- The per-instance mutable state of one `useMergeRefs` call site:
`element`, `didElementChange`, `previousRefs` and `currentRefs` are the four
`useRef` cells of the hook; `store` holds the `current` values of the
caller-supplied object refs that `assignRef` may write. -/
structure HookState where
  element : Option Elem
  didElementChange : Bool
  previousRefs : List RefTarget
  currentRefs : List RefTarget
  store : ObjStore
deriving DecidableEq, Repr

/-- State after the first render, before any ref callback has fired:
`useRef()` starts `element` at `undefined`, `didElementChange` at `false`,
`previousRefs` at `[]`. -/
def initialHookState : HookState :=
  { element := none, didElementChange := false, previousRefs := [], currentRefs := [], store := [] }

/-- The render-phase body of `useMergeRefs`:
`currentRefs.current = refs` (runs on every render, before any ref callback
or effect of that cycle). -/
def renderStep (s : HookState) (refs : List RefTarget) : HookState :=
  { s with currentRefs := refs }

/-- The merged ref callback returned by `useMergeRefs`, invoked by React with
the new element (`some e`) on mount/attach or `null` (`none`) on detach:
it stores the element (`assignRef( element, value )` on the internal
`element` ref object), flags `didElementChange`, and assigns `value` to
every ref in `currentRefs` when `value` is truthy, else to every ref in
`previousRefs`. -/
def mergedRefCallback (s : HookState) (value : Option Elem) : HookState × List RefEvent :=
  let s1 : HookState := { s with element := value, didElementChange := true }
  let refsToAssign := if value.isSome then s1.currentRefs else s1.previousRefs
  let p := assignRefList refsToAssign value s1.store
  ({ s1 with store := p.1 }, p.2)

/-- Read of `previousRefs.current[ index ]`: out-of-range reads yield `undefined`. -/
def refAtIndex (l : List RefTarget) (i : Nat) : RefTarget :=
  (l.get? i).getD .undefRef

/-- The `refs.forEach( ( ref, index ) => ... )` body of the first layout
effect: at each index of the new list whose ref identity changed, call the
previous ref with `null` and the new ref with the current element. -/
def diffAssign (prev : List RefTarget) (elem : Option Elem) :
    List RefTarget → Nat → ObjStore → ObjStore × List RefEvent
  | [], _, st => (st, [])
  | r :: rest, i, st =>
    let pr := refAtIndex prev i
    if r = pr then diffAssign prev elem rest (i + 1) st
    else
      let p := assignRef pr none st
      let q := assignRef r elem p.1
      let t := diffAssign prev elem rest (i + 1) q.1
      (t.1, p.2 ++ q.2 ++ t.2)

/-- The first `useLayoutEffect` of `useMergeRefs` (deps = `refs`): when the
element did not change in this cycle, diff the new refs against
`previousRefs` and reassign only the changed positions; in every case set
`previousRefs.current = refs`.  (React skips the effect when the deps are
elementwise identical, but then the body is extensionally a no-op, so the
model runs it unconditionally.) -/
def refChangeEffect (s : HookState) (refs : List RefTarget) : HookState × List RefEvent :=
  if s.didElementChange = false then
    let p := diffAssign s.previousRefs s.element refs 0 s.store
    ({ s with previousRefs := refs, store := p.1 }, p.2)
  else
    ({ s with previousRefs := refs }, [])

/-- Both layout effects in declaration order: the ref-diff effect followed by
the dependency-less effect that resets `didElementChange`. -/
def runEffects (s : HookState) (refs : List RefTarget) : HookState × List RefEvent :=
  let p := refChangeEffect s refs
  ({ p.1 with didElementChange := false }, p.2)

/-- A full render cycle in which the underlying element does not change:
render (update `currentRefs`), no ref-callback invocation, then the layout
effects. -/
def cycleNoElementChange (s : HookState) (refs : List RefTarget) :
    HookState × List RefEvent :=
  runEffects (renderStep s refs) refs

/-- A full render cycle in which the element changes: render, then React
invokes the merged ref callback with the new value during commit, then the
layout effects run. -/
def cycleWithElementChange (s : HookState) (refs : List RefTarget) (value : Option Elem) :
    HookState × List RefEvent :=
  let s1 := renderStep s refs
  let p := mergedRefCallback s1 value
  let q := runEffects p.1 refs
  (q.1, p.2 ++ q.2)

/-- The events of assigning `v` to each ref of a list in order. -/
def assignListEvents (refs : List RefTarget) (v : Option Elem) : List RefEvent :=
  (refs.map fun r => refEvents r v).flatten

theorem assignRef_events (r : RefTarget) (v : Option Elem) (s : ObjStore) :
    (assignRef r v s).2 = refEvents r v := by
  cases r <;> rfl

theorem assignRefList_events (refs : List RefTarget) (v : Option Elem) (s : ObjStore) :
    (assignRefList refs v s).2 = assignListEvents refs v := by
  induction refs generalizing s with
  | nil => rfl
  | cons r rest ih =>
    simp [assignRefList, assignListEvents, assignRef_events, ih]

/-- Positional characterisation of the ref-diff effect, walking the positions
of the NEW list with the position index: an unchanged position contributes no
events, a changed one contributes the previous ref called with `null`
followed by the new ref called with the current element.  Positions of the
previous list beyond the new list's length are never visited. -/
def diffSpec (prev : List RefTarget) (elem : Option Elem) :
    List RefTarget → Nat → List RefEvent
  | [], _ => []
  | r :: rest, i =>
    let pr := refAtIndex prev i
    (if r = pr then [] else refEvents pr none ++ refEvents r elem) ++
      diffSpec prev elem rest (i + 1)

theorem diffAssign_events (prev : List RefTarget) (elem : Option Elem)
    (l : List RefTarget) : ∀ (i : Nat) (st : ObjStore),
    (diffAssign prev elem l i st).2 = diffSpec prev elem l i := by
  induction l with
  | nil => intro i st; rfl
  | cons r rest ih =>
    intro i st
    simp only [diffAssign, diffSpec]
    by_cases h : r = refAtIndex prev i
    · simp [h, ih]
    · simp [h, ih, assignRef_events, List.append_assoc]

/-- Claim C1 (counterexample): when the ref list shrinks from `[fnRef 0]` to
`[]` while the element (`some 5`) stays the same, the removed ref is NOT
called with `null` — the cycle produces no events at all, refuting "each
removed ref is called with null". -/
theorem useMergeRefs_removed_ref_not_nulled :
    (cycleWithElementChange initialHookState [.fnRef 0] (some 5)).1.previousRefs
        = [RefTarget.fnRef 0] ∧
    (cycleWithElementChange initialHookState [.fnRef 0] (some 5)).1.element = some 5 ∧
    (cycleNoElementChange
        (cycleWithElementChange initialHookState [.fnRef 0] (some 5)).1 []).2 = [] := by
  decide

/-- Claim C1 (amended): in a render cycle where the element does not change
(and `didElementChange` was reset by the previous cycle), the event trace is
exactly `diffSpec`: walking the positions of the NEW ref list, a position
with unchanged identity contributes no calls, a changed position contributes
the previous ref called with `null` then the new ref called with the current
element; previous refs at positions beyond the new list's length are never
called (in particular they are not nulled). -/
theorem useMergeRefs_refDiff_positional (s : HookState) (refs : List RefTarget)
    (h : s.didElementChange = false) :
    (cycleNoElementChange s refs).2 = diffSpec s.previousRefs s.element refs 0 := by
  simp [cycleNoElementChange, runEffects, refChangeEffect, renderStep, h, diffAssign_events]

/-- Claim C1 (witness): a concrete settled state whose second list entry is
replaced; the theorem applies and its hypothesis is discharged by `rfl`. -/
theorem useMergeRefs_refDiff_positional_witness :
    ({ element := some 5, didElementChange := false,
       previousRefs := [.fnRef 0, .fnRef 1], currentRefs := [.fnRef 0, .fnRef 1],
       store := [] } : HookState).didElementChange = false ∧
    (cycleNoElementChange
        { element := some 5, didElementChange := false,
          previousRefs := [.fnRef 0, .fnRef 1], currentRefs := [.fnRef 0, .fnRef 1],
          store := [] }
        [.fnRef 0, .fnRef 2]).2 =
      diffSpec [.fnRef 0, .fnRef 1] (some 5) [.fnRef 0, .fnRef 2] 0 :=
  ⟨rfl, useMergeRefs_refDiff_positional _ _ rfl⟩

/-- Claim C3: when the element changes in a cycle (the merged callback is
invoked), the whole cycle's event trace is exactly the callback's own
assignments — the ref-diff layout effect, which runs afterwards in the same
cycle, contributes no events, so nothing is double-nulled or double-set even
if the ref list changed in the same render. -/
theorem useMergeRefs_elementChange_suppresses_refDiff (s : HookState)
    (refs : List RefTarget) (value : Option Elem) :
    (cycleWithElementChange s refs value).2 =
      assignListEvents (if value.isSome then refs else s.previousRefs) value ∧
    (refChangeEffect (mergedRefCallback (renderStep s refs) value).1 refs).2 = [] := by
  constructor
  · simp [cycleWithElementChange, runEffects, refChangeEffect, mergedRefCallback,
      renderStep, assignRefList_events]
  · simp [refChangeEffect, mergedRefCallback, renderStep]

/-- Claim C4 (counterexample): after mounting with ref list `[fnRef 0]`, a
render changes the list to `[fnRef 1]` and the element unmounts in the same
cycle: the merged callback invokes only `fnRef 0` (the previous list) with
`null`, and `fnRef 1` — a member of the CURRENT list — is skipped, refuting
"invokes all current refs ... with null on unmount; no ref in the current
list is skipped". -/
theorem useMergeRefs_unmount_skips_new_current_ref :
    (renderStep (cycleWithElementChange initialHookState [.fnRef 0] (some 5)).1
        [.fnRef 1]).currentRefs = [RefTarget.fnRef 1] ∧
    (mergedRefCallback
        (renderStep (cycleWithElementChange initialHookState [.fnRef 0] (some 5)).1
          [.fnRef 1]) none).2 = [⟨RefTarget.fnRef 0, none⟩] := by
  decide

/-- Claim C4 (amended): an invocation of the merged ref callback assigns the
value to every ref of one list, in order and skipping none: the CURRENT ref
list when the value is a new element (mount/swap-attach), but the PREVIOUS
ref list — the refs that were last attached — when the value is `null`
(unmount/detach). -/
theorem mergedRefCallback_assigns_whole_list (s : HookState) (value : Option Elem) :
    (mergedRefCallback s value).2 =
      assignListEvents (if value.isSome then s.currentRefs else s.previousRefs) value := by
  simp [mergedRefCallback, assignRefList_events]

/-- A memoised callback slot as managed by React's `useCallback`: the
dependency list it was created with and the identity of the stored callback. -/
structure CallbackMemo where
  deps : List Nat
  cb : Nat
deriving DecidableEq, Repr

/-- React's `useCallback` contract (external framework semantics): return the
memoised callback when the dependency list is unchanged, otherwise memoise
and return a freshly created callback (`fresh` models the new identity). -/
def useCallback (memo : Option CallbackMemo) (deps : List Nat) (fresh : Nat) :
    CallbackMemo × Nat :=
  match memo with
  | some m => if m.deps = deps then (m, m.cb) else (⟨deps, fresh⟩, fresh)
  | none => (⟨deps, fresh⟩, fresh)

/-- A `useMergeRefs` call site: its `useRef` cells plus its `useCallback`
memo slot. -/
structure HookInstance where
  state : HookState
  memo : Option CallbackMemo
deriving DecidableEq, Repr

/-- A freshly mounted component instance: no callback memoised yet. -/
def initialInstance : HookInstance :=
  { state := initialHookState, memo := none }

/-- One render of `useMergeRefs`: update `currentRefs.current` and return the
merged ref callback obtained from `useCallback( ..., [] )` — the dependency
list is the empty literal on every render. -/
def renderMergeRefs (inst : HookInstance) (refs : List RefTarget) (fresh : Nat) :
    HookInstance × Nat :=
  let st := { inst.state with currentRefs := refs }
  let p := useCallback inst.memo [] fresh
  ({ state := st, memo := some p.1 }, p.2)

/-- Render the hook once per entry of `inputs` (each entry the `refs`
argument of that render), collecting the identity of the callback returned
at each render; `fresh` numbers the renders so each potential fresh callback
has a distinct identity. -/
def renderedCallbacks (inst : HookInstance) (fresh : Nat) :
    List (List RefTarget) → List Nat
  | [] => []
  | refs :: rest =>
    let p := renderMergeRefs inst refs fresh
    p.2 :: renderedCallbacks p.1 (fresh + 1) rest

theorem renderedCallbacks_memoised (c : Nat) (st : HookState) :
    ∀ (inputs : List (List RefTarget)) (fresh : Nat),
    renderedCallbacks { state := st, memo := some ⟨[], c⟩ } fresh inputs =
      List.replicate inputs.length c := by
  intro inputs
  induction inputs generalizing st with
  | nil => intro fresh; rfl
  | cons refs rest ih =>
    intro fresh
    simp [renderedCallbacks, renderMergeRefs, useCallback, List.replicate, ih]

/-- Claim C2: across any sequence of renders of one component instance, with
arbitrary (and arbitrarily changing) `refs` arguments, `useMergeRefs` returns
a callback of one constant identity — the one created at the first render —
because its `useCallback` dependency list is always `[]`. -/
theorem useMergeRefs_callback_identity_stable (inputs : List (List RefTarget)) :
    renderedCallbacks initialInstance 0 inputs =
      List.replicate inputs.length 0 := by
  cases inputs with
  | nil => rfl
  | cons refs rest =>
    simp [renderedCallbacks, renderMergeRefs, useCallback, initialInstance,
      List.replicate, renderedCallbacks_memoised]

/-- The entries `assignRef` can act on: functions and ref objects owning a
`current` property. -/
def isInvocable : RefTarget → Bool
  | .fnRef _ => true
  | .objRef _ => true
  | _ => false

theorem assignRefList_filter_invocable (refs : List RefTarget) (v : Option Elem)
    (st : ObjStore) :
    assignRefList refs v st = assignRefList (refs.filter isInvocable) v st := by
  induction refs generalizing st with
  | nil => rfl
  | cons r rest ih =>
    cases r <;> simp [assignRefList, assignRef, isInvocable, refEvents, List.filter, ih]

/-- Claim C10: assigning any value through `assignRef` to `null`, `undefined`
or an object without an own `current` property is a total no-op — the store
is unchanged and no event is emitted — and consequently a ref-list
assignment (as performed by every invocation of the merged ref callback)
behaves exactly as if the nullish / non-ref entries were absent. -/
theorem assignRef_tolerates_non_refs (i : Nat) (v : Option Elem) (st : ObjStore)
    (refs : List RefTarget) (s : HookState) (value : Option Elem) :
    assignRef .nullRef v st = (st, []) ∧
    assignRef .undefRef v st = (st, []) ∧
    assignRef (.plainObj i) v st = (st, []) ∧
    assignRefList refs v st = assignRefList (refs.filter isInvocable) v st ∧
    (mergedRefCallback s value).2 =
      (mergedRefCallback
        { s with currentRefs := s.currentRefs.filter isInvocable,
                 previousRefs := s.previousRefs.filter isInvocable } value).2 := by
  refine ⟨rfl, rfl, rfl, assignRefList_filter_invocable refs v st, ?_⟩
  cases value <;>
    simp [mergedRefCallback, assignRefList_filter_invocable]

/-- Split a character list at every occurrence of `c`, JS
`String.prototype.split` style (`"a.b.".split "." = ["a","b",""]`);
`acc` is the piece accumulated so far, in reverse. -/
def splitOnCharAux (c : Char) : List Char → List Char → List (List Char)
  | [], acc => [acc.reverse]
  | x :: xs, acc =>
    if x = c then acc.reverse :: splitOnCharAux c xs []
    else splitOnCharAux c xs (x :: acc)

/-- JS `str.split( c )` for a single-character separator. -/
def splitOnChar (c : Char) (l : List Char) : List (List Char) :=
  splitOnCharAux c l []

/-- Join pieces back together with `c` between them (inverse of
`splitOnChar`). -/
def joinWithChar (c : Char) : List (List Char) → List Char
  | [] => []
  | [x] => x
  | x :: y :: xs => x ++ c :: joinWithChar c (y :: xs)

/-- The final path segment of a URL: everything after the last `/`. -/
def finalPathSegment (url : List Char) : List Char :=
  (splitOnChar '/' url).getLastD []

/-- Strip the query string (from the first `?`) and the fragment (from the
first `#`) off a path segment. -/
def stripQueryAndFragment (s : List Char) : List Char :=
  ((splitOnChar '#' ((splitOnChar '?' s).headD [])).headD [])

/-- The `{ title, extension }` result of `parseAudioUrl`. -/
structure AudioParseResult where
  title : String
  extension : String
deriving DecidableEq, Repr

/-- Modelled from the spec: `parseAudioUrl` of
`packages/components/src/mobile/audio-player/audio-url-parser` is not among
the sampled sources (only its test file is), so it is taken from the spec's
contract: "given a URL string, extract the final path segment, strip query
string and fragment, and split on the last `.` to separate a title from an
extension; if no `.` exists in the segment, the extension is empty and the
whole segment is the title." -/
def parseAudioUrl (url : String) : AudioParseResult :=
  let segment := stripQueryAndFragment (finalPathSegment url.toList)
  if '.' ∈ segment then
    let parts := splitOnChar '.' segment
    { title := String.mk (joinWithChar '.' parts.dropLast),
      extension := String.mk (parts.getLastD []) }
  else
    { title := String.mk segment, extension := "" }

/-- Claim C5: a URL whose final path segment — with query string and
fragment stripped — contains no `.` parses to an empty extension and a
title equal to that whole stripped segment. -/
theorem parseAudioUrl_no_dot (url : String)
    (h : '.' ∉ stripQueryAndFragment (finalPathSegment url.toList)) :
    parseAudioUrl url =
      { title := String.mk (stripQueryAndFragment (finalPathSegment url.toList)),
        extension := "" } := by
  simp only [parseAudioUrl]
  rw [if_neg h]

/-- Claim C5 (witness): `https://www.mp3.com/folder/file` has the dot-free
final segment `file`. -/
theorem parseAudioUrl_no_dot_witness :
    '.' ∉ stripQueryAndFragment
        (finalPathSegment ("https://www.mp3.com/folder/file" : String).toList) ∧
    parseAudioUrl "https://www.mp3.com/folder/file" =
      { title := String.mk (stripQueryAndFragment
          (finalPathSegment ("https://www.mp3.com/folder/file" : String).toList)),
        extension := "" } :=
  ⟨by decide, parseAudioUrl_no_dot _ (by decide)⟩

theorem splitOnCharAux_append_sep (c : Char) (l2 : List Char) :
    ∀ (l1 acc : List Char),
    splitOnCharAux c (l1 ++ c :: l2) acc = splitOnCharAux c l1 acc ++ splitOnChar c l2 := by
  intro l1
  induction l1 with
  | nil => intro acc; simp [splitOnCharAux, splitOnChar]
  | cons x xs ih =>
    intro acc
    by_cases h : x = c
    · subst h; simp [splitOnCharAux, ih]
    · simp [splitOnCharAux, h, ih]

theorem splitOnCharAux_of_not_mem (c : Char) :
    ∀ (l acc : List Char), c ∉ l → splitOnCharAux c l acc = [acc.reverse ++ l] := by
  intro l
  induction l with
  | nil => intro acc _; simp [splitOnCharAux]
  | cons x xs ih =>
    intro acc h
    have hx : ¬ (x = c) := by
      intro he
      exact h (by simp [he])
    have hxs : c ∉ xs := fun hm => h (List.mem_cons_of_mem x hm)
    simp [splitOnCharAux, hx, ih (x :: acc) hxs]

theorem splitOnCharAux_ne_nil (c : Char) :
    ∀ (l acc : List Char), splitOnCharAux c l acc ≠ [] := by
  intro l
  induction l with
  | nil => intro acc; simp [splitOnCharAux]
  | cons x xs ih =>
    intro acc
    by_cases h : x = c <;> simp [splitOnCharAux, h, ih]

theorem joinWithChar_cons_of_ne_nil (c : Char) (p : List Char) (ps : List (List Char))
    (h : ps ≠ []) :
    joinWithChar c (p :: ps) = p ++ c :: joinWithChar c ps := by
  cases ps with
  | nil => exact absurd rfl h
  | cons q qs => rfl

theorem joinWithChar_splitOnCharAux (c : Char) :
    ∀ (l acc : List Char), joinWithChar c (splitOnCharAux c l acc) = acc.reverse ++ l := by
  intro l
  induction l with
  | nil => intro acc; simp [splitOnCharAux, joinWithChar]
  | cons x xs ih =>
    intro acc
    by_cases h : x = c
    · rw [splitOnCharAux, if_pos h,
        joinWithChar_cons_of_ne_nil c _ _ (splitOnCharAux_ne_nil c xs []), ih []]
      simp [h]
    · rw [splitOnCharAux, if_neg h, ih (x :: acc)]
      simp

theorem splitOnChar_last_sep (c : Char) (pre post : List Char) (h : c ∉ post) :
    splitOnChar c (pre ++ c :: post) = splitOnChar c pre ++ [post] := by
  rw [splitOnChar, splitOnCharAux_append_sep, splitOnChar,
    splitOnCharAux_of_not_mem c post [] h]
  rfl

theorem String_mk_ne_empty {l : List Char} (h : l ≠ []) : String.mk l ≠ "" := by
  intro hh
  have hd : ("" : String).data = [] := rfl
  have hl := congrArg String.data hh
  rw [hd] at hl
  exact h hl

/-- Claim C6 (counterexample): `https://www.mp3.com/.` has the final segment
`.`, which contains a `.`, yet both the title and the extension parse to the
empty string — refuting "returns a non-empty title and a non-empty
extension". -/
theorem parseAudioUrl_dot_empty_parts :
    '.' ∈ stripQueryAndFragment
        (finalPathSegment ("https://www.mp3.com/." : String).toList) ∧
    parseAudioUrl "https://www.mp3.com/." = { title := "", extension := "" } := by
  decide

/-- Claim C6 (amended): for a URL whose final stripped path segment contains
a `.`, `parseAudioUrl` splits the segment at its LAST `.` — the title is
everything before it, the extension everything after it — and both are
non-empty provided the last `.` is neither the first nor the last character
of the segment (a segment beginning or ending with its last `.` yields an
empty title or extension respectively). -/
theorem parseAudioUrl_dot_split (url : String) (pre post : List Char)
    (h1 : stripQueryAndFragment (finalPathSegment url.toList) = pre ++ '.' :: post)
    (h2 : '.' ∉ post) (h3 : pre ≠ []) (h4 : post ≠ []) :
    parseAudioUrl url = { title := String.mk pre, extension := String.mk post } ∧
    String.mk pre ≠ "" ∧ String.mk post ≠ "" := by
  refine ⟨?_, String_mk_ne_empty h3, String_mk_ne_empty h4⟩
  have hmem : '.' ∈ (pre ++ '.' :: post) :=
    List.mem_append_right _ (List.mem_cons_self _ _)
  simp only [parseAudioUrl, h1]
  rw [if_pos hmem, splitOnChar_last_sep '.' pre post h2, List.dropLast_concat]
  have hlast : (splitOnChar '.' pre ++ [post]).getLastD [] = post := by
    rw [List.getLastD_eq_getLast?, List.getLast?_concat]
    rfl
  rw [hlast]
  have hjoin : joinWithChar '.' (splitOnChar '.' pre) = pre := by
    rw [splitOnChar, joinWithChar_splitOnCharAux]
    rfl
  rw [hjoin]

/-- Claim C6 (witness): `https://www.mp3.com/file.mp3` splits into title
`file` and extension `mp3`, both non-empty. -/
theorem parseAudioUrl_dot_split_witness :
    stripQueryAndFragment
        (finalPathSegment ("https://www.mp3.com/file.mp3" : String).toList) =
      ("file" : String).toList ++ '.' :: ("mp3" : String).toList ∧
    '.' ∉ ("mp3" : String).toList ∧
    ("file" : String).toList ≠ [] ∧
    ("mp3" : String).toList ≠ [] ∧
    (parseAudioUrl "https://www.mp3.com/file.mp3" =
      { title := String.mk ("file" : String).toList,
        extension := String.mk ("mp3" : String).toList } ∧
     String.mk ("file" : String).toList ≠ "" ∧
     String.mk ("mp3" : String).toList ≠ "") :=
  ⟨by decide, by decide, by decide, by decide,
    parseAudioUrl_dot_split _ _ _ (by decide) (by decide) (by decide) (by decide)⟩

/-- The constant `FONT_FAMILY_SUPPORT_KEY` from `font-family.js`. -/
def FONT_FAMILY_SUPPORT_KEY : String := "__experimentalFontFamily"

/-- The skip-serialization support key used inline in `font-family.js`. -/
def SKIP_TYPOGRAPHY_SERIALIZATION_KEY : String := "__experimentalSkipTypographySerialization"

/-- Modelled from the spec: a block type descriptor carries its declared
support flags ("Capability/support flag: a declarative marker on a block
type enabling an optional feature"); `supports` lists the declared keys. -/
structure BlockType where
  supports : List String
deriving DecidableEq, Repr

/-- Modelled from the spec: `hasBlockSupport` from `@wordpress/blocks` (not
among the sampled sources) — whether the block type declares the capability
key. -/
def hasBlockSupport (b : BlockType) (key : String) : Bool :=
  b.supports.contains key

/-- An attribute schema entry such as `{ type: 'string' }`. -/
structure AttrSchema where
  type : String
deriving DecidableEq, Repr

/-- Registered block settings: support flags plus the attribute schema map. -/
structure BlockSettings where
  supports : List String
  attributes : List (String × AttrSchema)
deriving DecidableEq, Repr

/-- The call `hasBlockSupport( settings, key )` applied to a full settings object. -/
def settingsHasSupport (s : BlockSettings) (key : String) : Bool :=
  s.supports.contains key

/-- Embedding of `addAttributes` from `font-family.js`: extend the attributes of a block
declaring the font-family capability with a `fontFamily` string attribute,
unless one is already declared. -/
def addAttributes (settings : BlockSettings) : BlockSettings :=
  if !settingsHasSupport settings FONT_FAMILY_SUPPORT_KEY then settings
  else if (settings.attributes.lookup "fontFamily").isSome then settings
  else { settings with attributes := settings.attributes ++ [("fontFamily", ⟨"string"⟩)] }

/-- JS truthiness of a possibly-missing string value: `undefined`/`null` and
`''` are falsy. -/
def isTruthyStr : Option String → Bool
  | none => false
  | some s => !s.isEmpty

/-- The path `attributes.style.typography.fontFamily` as far as the sampled code reads
it. -/
structure TypographyStyle where
  fontFamily : Option String
deriving DecidableEq, Repr

/-- The `style` block attribute, as far as the sampled code reads it. -/
structure StyleAttr where
  typography : Option TypographyStyle
deriving DecidableEq, Repr

/-- The block attributes consumed by `addSaveProps`. -/
structure BlockAttributes where
  fontFamily : Option String
  style : Option StyleAttr
deriving DecidableEq, Repr

/-- Props applied to the save element; `other` stands for the untouched
remaining props. -/
structure SaveProps where
  className : Option String
  other : List (String × String)
deriving DecidableEq, Repr

/-- Modelled from the spec: `TokenList` from `@wordpress/token-list` (not
among the sampled sources) parses a class string by splitting on whitespace,
dropping empties and deduplicating ("Use TokenList to dedupe classes"). -/
def parseTokens (s : String) : List String :=
  (((splitOnChar ' ' s.toList).map String.mk).filter (fun t => t ≠ "")).dedup

/-- Model of `TokenList.add`: append the token unless it is already present. -/
def addToken (s : String) (t : String) : List String :=
  let l := parseTokens s
  if t ∈ l then l else l ++ [t]

/-- Model of `TokenList.value`: the tokens joined with single spaces. -/
def classListValue (l : List String) : String :=
  String.mk (joinWithChar ' ' (l.map String.data))

/-- Embedding of `addSaveProps` from `font-family.js`: inject the
`has-<slug>-font-family` class into the save props of a supporting block
with a truthy `fontFamily` attribute, unless typography serialization is
skipped. -/
def addSaveProps (props : SaveProps) (blockType : BlockType)
    (attributes : BlockAttributes) : SaveProps :=
  if !hasBlockSupport blockType FONT_FAMILY_SUPPORT_KEY then props
  else if hasBlockSupport blockType SKIP_TYPOGRAPHY_SERIALIZATION_KEY then props
  else if !isTruthyStr attributes.fontFamily then props
  else
    let slug := attributes.fontFamily.getD ""
    let newClassName :=
      classListValue (addToken (props.className.getD "") ("has-" ++ slug ++ "-font-family"))
    { props with className := if newClassName = "" then none else some newClassName }

/-- A `typography.fontFamilies` editor-settings entry. -/
structure FontFamilySetting where
  slug : String
  fontFamily : String
deriving DecidableEq, Repr

/-- A wrapper `style` object: its `fontFamily` key (if present) and its
remaining keys. -/
structure WrapperStyle where
  fontFamily : Option String
  other : List (String × String)
deriving DecidableEq, Repr

/-- The `wrapperProps` object: its `style` key (if present) and its remaining keys. -/
structure WrapperProps where
  style : Option WrapperStyle
  other : List (String × String)
deriving DecidableEq, Repr

/-- The props of the wrapped `BlockListBlock`, as far as
`withFontFamilyInlineStyles` reads them. -/
structure BlockListProps where
  blockName : String
  fontFamily : Option String
  style : Option StyleAttr
  wrapperProps : Option WrapperProps
  other : List (String × String)
deriving DecidableEq, Repr

/-- The registered block types, by name. -/
abbrev BlockRegistry := List (String × BlockType)

/-- Modelled from the spec: `hasBlockSupport` called with a block NAME
resolves the block type through the registry; an unregistered name has no
supports. -/
def hasBlockSupportByName (reg : BlockRegistry) (name : String) (key : String) : Bool :=
  match reg.lookup name with
  | some bt => hasBlockSupport bt key
  | none => false

/-- Truthiness of `style?.typography?.fontFamily`. -/
def hasInlineFontFamily (style : Option StyleAttr) : Bool :=
  match style with
  | some st =>
    match st.typography with
    | some t => isTruthyStr t.fontFamily
    | none => false
  | none => false

/-- Embedding of `withFontFamilyInlineStyles` from `font-family.js` (the component wrapper
body, with the `useSetting( 'typography.fontFamilies' )` value passed in):
unless the guard bails out, render with `wrapperProps` whose `style` is
`{ fontFamily: fontFamilyValue, ...wrapperProps?.style }` — JS spread, so
every pre-existing key of the old style, including `fontFamily`, overrides
the computed value. -/
def withFontFamilyInlineStyles (reg : BlockRegistry)
    (fontFamilies : List FontFamilySetting) (props : BlockListProps) : BlockListProps :=
  if !hasBlockSupportByName reg props.blockName FONT_FAMILY_SUPPORT_KEY
      || hasBlockSupportByName reg props.blockName SKIP_TYPOGRAPHY_SERIALIZATION_KEY
      || !isTruthyStr props.fontFamily
      || hasInlineFontFamily props.style then
    props
  else
    let fontFamilyValue :=
      (fontFamilies.find? (fun f => f.slug == props.fontFamily.getD "")).map
        (fun f => f.fontFamily)
    let oldStyle := props.wrapperProps.bind (fun w => w.style)
    let mergedStyle : WrapperStyle :=
      { fontFamily :=
          match oldStyle with
          | some st =>
            match st.fontFamily with
            | some f => some f
            | none => fontFamilyValue
          | none => fontFamilyValue,
        other := (oldStyle.map (fun st => st.other)).getD [] }
    { props with
        wrapperProps := some
          { style := some mergedStyle,
            other := (props.wrapperProps.map (fun w => w.other)).getD [] } }

/-- Claim C7: for a block that does not declare the font-family support key,
all three pipeline callbacks return their input unchanged — the settings
object, the save props, and the rendered props. -/
theorem fontFamily_callbacks_noop_without_support
    (settings : BlockSettings) (props : SaveProps) (bt : BlockType)
    (attrs : BlockAttributes) (reg : BlockRegistry)
    (ffs : List FontFamilySetting) (blp : BlockListProps)
    (h1 : settingsHasSupport settings FONT_FAMILY_SUPPORT_KEY = false)
    (h2 : hasBlockSupport bt FONT_FAMILY_SUPPORT_KEY = false)
    (h3 : hasBlockSupportByName reg blp.blockName FONT_FAMILY_SUPPORT_KEY = false) :
    addAttributes settings = settings ∧
    addSaveProps props bt attrs = props ∧
    withFontFamilyInlineStyles reg ffs blp = blp := by
  refine ⟨?_, ?_, ?_⟩
  · simp [addAttributes, h1]
  · simp [addSaveProps, h2]
  · simp [withFontFamilyInlineStyles, h3]

/-- Claim C7 (witness): a block type, settings object and props with no
declared supports are passed through by all three callbacks. -/
theorem fontFamily_callbacks_noop_without_support_witness :
    settingsHasSupport ⟨[], [("content", ⟨"string"⟩)]⟩ FONT_FAMILY_SUPPORT_KEY = false ∧
    hasBlockSupport ⟨["anchor"]⟩ FONT_FAMILY_SUPPORT_KEY = false ∧
    hasBlockSupportByName [("core/quote", ⟨["anchor"]⟩)]
      ({ blockName := "core/quote", fontFamily := some "a", style := none,
         wrapperProps := none, other := [] } : BlockListProps).blockName
      FONT_FAMILY_SUPPORT_KEY = false ∧
    (addAttributes ⟨[], [("content", ⟨"string"⟩)]⟩ = ⟨[], [("content", ⟨"string"⟩)]⟩ ∧
     addSaveProps ⟨some "c", []⟩ ⟨["anchor"]⟩ ⟨some "a", none⟩ = ⟨some "c", []⟩ ∧
     withFontFamilyInlineStyles [("core/quote", ⟨["anchor"]⟩)] [⟨"a", "Arial"⟩]
        { blockName := "core/quote", fontFamily := some "a", style := none,
          wrapperProps := none, other := [] } =
        { blockName := "core/quote", fontFamily := some "a", style := none,
          wrapperProps := none, other := [] }) :=
  ⟨by decide, by decide, by decide,
    fontFamily_callbacks_noop_without_support _ _ _ _ _ _ _
      (by decide) (by decide) (by decide)⟩

theorem mem_addToken (s t : String) : t ∈ addToken s t := by
  unfold addToken
  by_cases h : t ∈ parseTokens s <;> simp [h]

theorem joinWithChar_ne_nil (c : Char) (ls : List (List Char)) (x : List Char)
    (hx : x ∈ ls) (hne : x ≠ []) : joinWithChar c ls ≠ [] := by
  cases ls with
  | nil => cases hx
  | cons a as =>
    cases as with
    | nil =>
      have : x = a := by simpa using hx
      simpa [joinWithChar, this.symm]
    | cons b bs => simp [joinWithChar]

theorem data_ne_nil_of_ne_empty {t : String} (h : t ≠ "") : t.data ≠ [] := by
  intro hd
  apply h
  cases t with
  | mk d =>
    have hd2 : d = [] := hd
    rw [hd2]

theorem classListValue_ne_empty {l : List String} {t : String}
    (ht : t ∈ l) (hne : t ≠ "") : classListValue l ≠ "" := by
  apply String_mk_ne_empty
  exact joinWithChar_ne_nil ' ' _ t.data (List.mem_map_of_mem String.data ht)
    (data_ne_nil_of_ne_empty hne)

theorem font_family_class_ne_empty (slug : String) :
    ("has-" ++ slug ++ "-font-family" : String) ≠ "" := by
  intro h
  have hl := congrArg String.length h
  rw [String.length_append, String.length_append] at hl
  have h1 : ("has-" : String).length = 4 := rfl
  have h2 : ("-font-family" : String).length = 12 := rfl
  have h3 : ("" : String).length = 0 := rfl
  rw [h1, h2, h3] at hl
  omega

/-- Claim C8: for a supporting block with a truthy `fontFamily` attribute,
`addSaveProps` sets `className` to the token list of the old class string
with `has-<slug>-font-family` added (the token is present in the result) —
except when the block declares the skip-typography-serialization support, in
which case the props are returned unchanged. -/
theorem addSaveProps_adds_font_family_class (props : SaveProps) (bt : BlockType)
    (attrs : BlockAttributes)
    (h1 : hasBlockSupport bt FONT_FAMILY_SUPPORT_KEY = true)
    (h2 : isTruthyStr attrs.fontFamily = true) :
    (hasBlockSupport bt SKIP_TYPOGRAPHY_SERIALIZATION_KEY = true →
      addSaveProps props bt attrs = props) ∧
    (hasBlockSupport bt SKIP_TYPOGRAPHY_SERIALIZATION_KEY = false →
      addSaveProps props bt attrs =
        { props with className := some (classListValue
            (addToken (props.className.getD "")
              ("has-" ++ attrs.fontFamily.getD "" ++ "-font-family"))) } ∧
      ("has-" ++ attrs.fontFamily.getD "" ++ "-font-family") ∈
        addToken (props.className.getD "")
          ("has-" ++ attrs.fontFamily.getD "" ++ "-font-family")) := by
  constructor
  · intro hskip
    simp [addSaveProps, h1, hskip]
  · intro hskip
    have htok := mem_addToken (props.className.getD "")
      ("has-" ++ attrs.fontFamily.getD "" ++ "-font-family")
    have hcls := classListValue_ne_empty htok
      (font_family_class_ne_empty (attrs.fontFamily.getD ""))
    refine ⟨?_, htok⟩
    simp [addSaveProps, h1, hskip, h2, hcls]

/-- Claim C8 (witness): a supporting block with slug `ibm-plex` and existing
class `is-wide` gets `has-ibm-plex-font-family` appended. -/
theorem addSaveProps_adds_font_family_class_witness :
    hasBlockSupport ⟨[FONT_FAMILY_SUPPORT_KEY]⟩ FONT_FAMILY_SUPPORT_KEY = true ∧
    isTruthyStr (some "ibm-plex") = true ∧
    ((hasBlockSupport ⟨[FONT_FAMILY_SUPPORT_KEY]⟩ SKIP_TYPOGRAPHY_SERIALIZATION_KEY = true →
        addSaveProps ⟨some "is-wide", []⟩ ⟨[FONT_FAMILY_SUPPORT_KEY]⟩
          ⟨some "ibm-plex", none⟩ = ⟨some "is-wide", []⟩) ∧
     (hasBlockSupport ⟨[FONT_FAMILY_SUPPORT_KEY]⟩ SKIP_TYPOGRAPHY_SERIALIZATION_KEY = false →
        addSaveProps ⟨some "is-wide", []⟩ ⟨[FONT_FAMILY_SUPPORT_KEY]⟩
          ⟨some "ibm-plex", none⟩ =
          { className := some (classListValue
              (addToken "is-wide" ("has-" ++ "ibm-plex" ++ "-font-family"))),
            other := [] } ∧
        ("has-" ++ "ibm-plex" ++ "-font-family") ∈
          addToken "is-wide" ("has-" ++ "ibm-plex" ++ "-font-family"))) :=
  ⟨by decide, by decide,
    addSaveProps_adds_font_family_class _ _ _ (by decide) (by decide)⟩

/-- Claim C9 (counterexample): a block that has font-family support, a
matching `fontFamily` slug and no explicit inline font-family style, but
also declares the skip-typography-serialization support, is passed through
unchanged — `wrapperProps` stays absent and no `style.fontFamily` is set,
refuting the claim, which makes no allowance for the skip support in the
style-injection path. -/
theorem withFontFamilyInlineStyles_skipped_despite_claim :
    hasBlockSupportByName
        [("core/x", ⟨[FONT_FAMILY_SUPPORT_KEY, SKIP_TYPOGRAPHY_SERIALIZATION_KEY]⟩)]
        "core/x" FONT_FAMILY_SUPPORT_KEY = true ∧
    isTruthyStr (some "a") = true ∧
    hasInlineFontFamily none = false ∧
    (List.find? (fun f => f.slug == "a")
        [(⟨"a", "Arial"⟩ : FontFamilySetting)]).isSome = true ∧
    withFontFamilyInlineStyles
        [("core/x", ⟨[FONT_FAMILY_SUPPORT_KEY, SKIP_TYPOGRAPHY_SERIALIZATION_KEY]⟩)]
        [⟨"a", "Arial"⟩]
        { blockName := "core/x", fontFamily := some "a", style := none,
          wrapperProps := none, other := [] } =
      { blockName := "core/x", fontFamily := some "a", style := none,
        wrapperProps := none, other := [] } := by
  decide

/-- Claim C9 (amended): for a block with font-family support that does NOT
declare the skip-typography-serialization support, with a truthy `fontFamily`
attribute whose slug matches a settings entry: when an explicit inline
font-family style exists the props pass through unchanged; otherwise the
wrapper props are rebuilt with a merged style in which every pre-existing
wrapper-style key is preserved — in particular a pre-existing
`style.fontFamily` keeps its caller value — and the matching entry's
`fontFamily` value fills `style.fontFamily` only when the old wrapper style
had none (JS spread puts the computed value first, so it acts as a default,
not an override). -/
theorem withFontFamilyInlineStyles_merges_style_default (reg : BlockRegistry)
    (ffs : List FontFamilySetting) (props : BlockListProps) (entry : FontFamilySetting)
    (h1 : hasBlockSupportByName reg props.blockName FONT_FAMILY_SUPPORT_KEY = true)
    (h2 : hasBlockSupportByName reg props.blockName SKIP_TYPOGRAPHY_SERIALIZATION_KEY = false)
    (h3 : isTruthyStr props.fontFamily = true)
    (hfind : ffs.find? (fun f => f.slug == props.fontFamily.getD "") = some entry) :
    (hasInlineFontFamily props.style = true →
      withFontFamilyInlineStyles reg ffs props = props) ∧
    (hasInlineFontFamily props.style = false →
      withFontFamilyInlineStyles reg ffs props =
        { props with
            wrapperProps := some
              ({ style := some
                   ({ fontFamily :=
                        (match props.wrapperProps.bind (fun w => w.style) with
                         | some st =>
                           match st.fontFamily with
                           | some f => some f
                           | none => some entry.fontFamily
                         | none => some entry.fontFamily),
                      other := ((props.wrapperProps.bind (fun w => w.style)).map
                        (fun st => st.other)).getD [] } : WrapperStyle),
                 other := (props.wrapperProps.map (fun w => w.other)).getD [] } :
                WrapperProps) }) := by
  constructor
  · intro hin
    simp [withFontFamilyInlineStyles, hin]
  · intro hin
    simp [withFontFamilyInlineStyles, h1, h2, h3, hin, hfind]

/-- Claim C9 (witness): a supporting block (no skip flag) with slug `a`
matching the settings entry `(a, Arial)` and a pre-existing wrapper style
without a `fontFamily` key: the style gains `fontFamily := Arial` while the
pre-existing `color` key and the other wrapper props are preserved. -/
theorem withFontFamilyInlineStyles_merges_style_default_witness :
    hasBlockSupportByName [("core/x", ⟨[FONT_FAMILY_SUPPORT_KEY]⟩)] "core/x"
        FONT_FAMILY_SUPPORT_KEY = true ∧
    hasBlockSupportByName [("core/x", ⟨[FONT_FAMILY_SUPPORT_KEY]⟩)] "core/x"
        SKIP_TYPOGRAPHY_SERIALIZATION_KEY = false ∧
    isTruthyStr (some "a") = true ∧
    List.find? (fun f => f.slug == "a") [(⟨"a", "Arial"⟩ : FontFamilySetting)] =
      some ⟨"a", "Arial"⟩ ∧
    ((hasInlineFontFamily none = true →
        withFontFamilyInlineStyles [("core/x", ⟨[FONT_FAMILY_SUPPORT_KEY]⟩)]
          [⟨"a", "Arial"⟩]
          { blockName := "core/x", fontFamily := some "a", style := none,
            wrapperProps := some ⟨some ⟨none, [("color", "red")]⟩, [("id", "w")]⟩,
            other := [] } =
          { blockName := "core/x", fontFamily := some "a", style := none,
            wrapperProps := some ⟨some ⟨none, [("color", "red")]⟩, [("id", "w")]⟩,
            other := [] }) ∧
     (hasInlineFontFamily none = false →
        withFontFamilyInlineStyles [("core/x", ⟨[FONT_FAMILY_SUPPORT_KEY]⟩)]
          [⟨"a", "Arial"⟩]
          { blockName := "core/x", fontFamily := some "a", style := none,
            wrapperProps := some ⟨some ⟨none, [("color", "red")]⟩, [("id", "w")]⟩,
            other := [] } =
          { blockName := "core/x", fontFamily := some "a", style := none,
            wrapperProps := some ⟨some ⟨some "Arial", [("color", "red")]⟩, [("id", "w")]⟩,
            other := [] })) :=
  ⟨by decide, by decide, by decide, by decide,
    withFontFamilyInlineStyles_merges_style_default
      [("core/x", ⟨[FONT_FAMILY_SUPPORT_KEY]⟩)] [⟨"a", "Arial"⟩]
      { blockName := "core/x", fontFamily := some "a", style := none,
        wrapperProps := some ⟨some ⟨none, [("color", "red")]⟩, [("id", "w")]⟩,
        other := [] }
      ⟨"a", "Arial"⟩ (by decide) (by decide) (by decide) (by decide)⟩
